import Mathlib

set_option maxHeartbeats 1000000

namespace FQueue

/-- One framed record on disk: `marshal.dump((crc32, value), f)` stores the pair
of the crc and the body; the body is the zlib-compressed payload
(fqueue.py:231-234). -/
structure Frame where
  crc : Int
  body : List Nat
  deriving Repr, DecidableEq

/-- Byte size of one framed record.  The marshal framing adds a constant
overhead to the body, so every frame occupies at least one byte and the offset
after each record is a strictly increasing record boundary. -/
def frameSize (f : Frame) : Nat := f.body.length + 10

/-- A bucket file `name.N`: a concatenation of framed records. -/
abbrev File := List Frame

def fileSize (f : File) : Nat := (f.map frameSize).sum

/-- The on-disk bucket files, keyed by bucket number. -/
abbrev FileStore := List (Int × File)

def lookupF : FileStore → Int → Option File
  | [], _ => none
  | (j, g) :: rest, k => if j = k then some g else lookupF rest k

/-- `os.path.exists` for bucket `k`. -/
def existsF (fs : FileStore) (k : Int) : Bool := (lookupF fs k).isSome

def getFileD (fs : FileStore) (k : Int) : File := (lookupF fs k).getD []

def setF : FileStore → Int → File → FileStore
  | [], k, g => [(k, g)]
  | (j, g) :: rest, k, g' => if j = k then (k, g') :: rest else (j, g) :: setF rest k g'

/-- `os.unlink` of bucket `k`. -/
def removeF : FileStore → Int → FileStore
  | [], _ => []
  | (j, g) :: rest, k => if j = k then removeF rest k else (j, g) :: removeF rest k

/-- Content of the durable position file `name.pos`.  `__init__` seeds a fresh
file with `marshal.dumps((0, 0, 0))` (fqueue.py:90-93); `_update_pos` overwrites
it with a 2-tuple (fqueue.py:116). -/
inductive PosData
  /-- the file does not exist yet -/
  | absent
  /-- the 3-tuple `(0, 0, 0)` written by `__init__` -/
  | initTriple
  /-- a 2-tuple `(fnum, offset)` written by `_update_pos` -/
  | pair (f : Int) (o : Nat)
  /-- empty, truncated or garbage content -/
  | corruptData
  deriving Repr, DecidableEq

/-- `_fnum, _offset = marshal.load(fpos)` (fqueue.py:110): only a stored 2-tuple
unpacks; the initial 3-tuple raises `ValueError`, empty or truncated content
raises `EOFError`/`ValueError`/`TypeError` (fqueue.py:111). -/
def loadPair : PosData → Option (Int × Nat)
  | .pair f o => some (f, o)
  | _ => none

/-- The whole queue state visible to one process: bucket files, the durable
position file, the shared-memory mirror, the two semaphore counters, and the
open read/write bucket numbers (`self.frnum` / `self.fwnum`). -/
structure QState where
  files : FileStore
  posData : PosData
  shm : Option (Int × Nat × Nat)
  sem : Nat
  lck : Nat
  frnum : Option Int
  fwnum : Option Int
  deriving Repr, DecidableEq

/-- `bucket_size = 10 * 1024 * 1024` (fqueue.py:76). -/
def bucket_size : Nat := 10 * 1024 * 1024

/-- `sync_age = 500` (fqueue.py:77). -/
def sync_age : Nat := 500

/-- Side-effecting calls made by `put` and `_update_pos`, in program order. -/
inductive Ev
  | flockAcq
  | flockRel
  | dump
  | flush
  | fsync
  | tell
  | load
  | semRel
  | openW (k : Int)
  deriving Repr, DecidableEq

/-- `_update_pos(fnum, offset)` (fqueue.py:106-119) with its event trace: under
the exclusive lock on `name.pos` it loads the old tuple (falling back to
`(0, 0)` when the content does not unpack), and, when both arguments are given,
overwrites the file with the new tuple, flushes and fsyncs.  Returns the
pre-update tuple. -/
def updatePosTr (s : QState) (fnum : Option Int) (offset : Option Nat) :
    (Int × Nat) × QState × List Ev :=
  let old := (loadPair s.posData).getD (0, 0)
  match fnum, offset with
  | some f, some o =>
      (old, { s with posData := .pair f o },
        [Ev.flockAcq, Ev.load, Ev.dump, Ev.flush, Ev.fsync, Ev.flockRel])
  | _, _ => (old, s, [Ev.flockAcq, Ev.load, Ev.flockRel])

def updatePos (s : QState) (fnum : Option Int) (offset : Option Nat) :
    (Int × Nat) × QState :=
  ((updatePosTr s fnum offset).1, (updatePosTr s fnum offset).2.1)

/-- The `while os.path.exists: os.unlink` loop of `_cleanup` (fqueue.py:126-133),
with fuel; each iteration that runs removes an existing file, so a fuel larger
than the number of files is enough. -/
def cleanupAux : Nat → FileStore → Int → FileStore
  | 0, fs, _ => fs
  | n + 1, fs, k => if existsF fs k then cleanupAux n (removeF fs k) (k - 1) else fs

/-- `_cleanup(fnum)` (fqueue.py:121-133): unlink bucket `fnum` and walk down
while the next lower bucket still exists. -/
def cleanup (s : QState) (k : Int) : QState :=
  { s with files := cleanupAux (s.files.length + 1) s.files k }

/-- `_open_read(frnum)` (fqueue.py:135-144): no-op when already open on that
bucket; otherwise touch the file into existence if missing and switch the read
handle. -/
def openRead (s : QState) (k : Int) : QState :=
  if s.frnum = some k then s
  else
    let fs := if existsF s.files k then s.files else (k, []) :: s.files
    { s with files := fs, frnum := some k }

/-- The forward scan of `_open_write` (fqueue.py:148-151): starting at the
requested bucket, walk up while files exist and keep the last existing one. -/
def scanW : Nat → FileStore → Int → Int → Int
  | 0, _, fw, _ => fw
  | n + 1, fs, fw, cur => if existsF fs cur then scanW n fs cur (cur + 1) else fw

/-- `_open_write(fwnum)` (fqueue.py:147-158): scan to the highest existing
bucket from `fwnum`, no-op when already open there, else open it for append
(creating it when missing). -/
def openWrite (s : QState) (k : Int) : QState :=
  let fw := scanW (s.files.length + 1) s.files k k
  if s.fwnum = some fw then s
  else
    let fs := if existsF s.files fw then s.files else (fw, []) :: s.files
    { s with files := fs, fwnum := some fw }

/-- The external serialization and compression collaborators used by the queue:
`marshal.dumps`/`marshal.loads` and `zlib.compress`/`zlib.decompress`/`zlib.crc32`.
The engine treats payloads as opaque and relies only on the round-trip
properties stated as hypotheses of the theorems below. -/
structure Codec (α : Type) where
  dumps : α → List Nat
  loads : List Nat → Option α
  compress : List Nat → List Nat
  decompress : List Nat → List Nat
  crc32 : List Nat → Int

/-- Errors `put` could surface; `Full` is part of the queue interface
(`Queue.Full`) and `uninit` models calling `put` before a write handle exists. -/
inductive PutErr
  | full
  | uninit
  deriving Repr, DecidableEq

/-- `put(value, block=True, timeout=None)` (fqueue.py:230-242) with its event
trace: compress the marshalled value, take the write-bucket file lock, write the
framed `(crc32, value)` pair, flush, fsync and record the file length, release
the lock, release the pending-item semaphore, and finally open the next write
bucket when the length passed `bucket_size`.  `blck` and `tmo` are the `block`
and `timeout` parameters. -/
def putTr {α : Type} (c : Codec α) (s : QState) (v : α) (blck : Bool)
    (tmo : Option Nat) : Except PutErr (QState × List Ev) :=
  match s.fwnum with
  | none => .error .uninit
  | some fw =>
    let value := c.compress (c.dumps v)
    let crc := c.crc32 value
    let g := getFileD s.files fw ++ [⟨crc, value⟩]
    let offset := fileSize g
    let s1 : QState := { s with files := setF s.files fw g, sem := s.sem + 1 }
    let r := if offset > bucket_size
             then (openWrite s1 (fw + 1), [Ev.openW (fw + 1)])
             else (s1, ([] : List Ev))
    .ok (r.1, [Ev.flockAcq, Ev.dump, Ev.flush, Ev.fsync, Ev.tell, Ev.flockRel,
               Ev.semRel] ++ r.2)

def putQ {α : Type} (c : Codec α) (s : QState) (v : α) (blck : Bool)
    (tmo : Option Nat) : Except PutErr QState :=
  (putTr c s v blck tmo).map Prod.fst

/-- Result of one `marshal.load` attempt at a byte offset of a bucket file
(fqueue.py:196): at or past the end of the data it raises `EOFError`; at a
record boundary it yields the frame and the new `tell`; inside a frame the
marshal stream is invalid (`ValueError`/`TypeError`). -/
inductive DecRes
  | ok (fr : Frame) (newOff : Nat)
  | eof
  | corrupt
  deriving Repr, DecidableEq

def decodeAt : File → Nat → DecRes
  | [], _ => .eof
  | f :: rest, off =>
    if off = 0 then .ok f (frameSize f)
    else if off < frameSize f then .corrupt
    else
      match decodeAt rest (off - frameSize f) with
      | .ok g n => .ok g (frameSize f + n)
      | r => r

/-- Outcome of a `get` call. -/
inductive GetOut (α : Type)
  /-- a decoded payload was returned (fqueue.py:228) -/
  | payload (v : α)
  /-- the stored body was the empty byte string, so `value and ...` returns it
  raw without decompressing (fqueue.py:228) -/
  | rawEmpty
  /-- `Queue.Empty` was raised (fqueue.py:173) -/
  | empty
  /-- the pending-item acquire would wait forever (no signal will arrive in a
  single-process run) -/
  | blocked
  /-- `BusyError` propagated from the reader-lock acquire (fqueue.py:179) -/
  | busyErr
  /-- `marshal.loads`/`zlib.decompress` of the returned body failed at
  fqueue.py:228, outside the recovery handlers -/
  | loadErr
  /-- the model ran out of fuel for the `while True` loop -/
  | noFuel
  deriving Repr, DecidableEq

/-- One iteration of `get`'s `while True` loop either returns or goes round
again. -/
inductive StepRes (α : Type)
  | done (out : GetOut α) (s : QState)
  | again (s : QState)
  deriving Repr, DecidableEq

/-- `self.lock.release()` in the outer `finally` (fqueue.py:226). -/
def relLock (s : QState) : QState := { s with lck := s.lck + 1 }

/-- The inner `finally` of `get` (fqueue.py:218-223): when the age reached
`sync_age`, durably rewrite `name.pos` with the current read bucket
(`self.frnum`) and offset and reset the age; then write
`(self.frnum, offset, age + 1)` to the shared-memory mirror. -/
def finallyUpd (s : QState) (offset : Nat) (age : Nat) : QState :=
  let fr := s.frnum.getD 0
  let r := if sync_age ≤ age
           then ((updatePos s (some fr) (some offset)).2, 0)
           else (s, age)
  { r.1 with shm := some (fr, offset, r.2 + 1) }

/-- One iteration of `get` (fqueue.py:168-226).  `wa` is the timeout argument
already computed for the pending-item acquire at fqueue.py:171; in this
single-process model an acquire succeeds exactly when the counter is positive,
a zero counter with a finite timeout raises `BusyError`, and a zero counter
with an infinite timeout blocks forever. -/
def getStep {α : Type} (c : Codec α) (wa : Option Nat) (s : QState) : StepRes α :=
  if s.sem = 0 then
    match wa with
    | some _ => .done .empty s
    | none => .done .blocked s
  else
  let s1 : QState := { s with sem := s.sem - 1 }
  if s1.lck = 0 then .done .busyErr s1
  else
  let s2 : QState := { s1 with lck := s1.lck - 1 }
  let t :=
    match s2.shm with
    | some (f, o, a) => (f, o, a, s2)
    | none =>
      let r := updatePos s2 none none
      (r.1.1, r.1.2, 0, r.2)
  let frnum := t.1
  let off := t.2.1
  let age := t.2.2.1
  let s4 := openRead t.2.2.2 frnum
  match decodeAt (getFileD s4.files frnum) off with
  | .eof => .again (relLock (finallyUpd s4 off age))
  | .corrupt =>
      let r := updatePos s4 none none
      .again (relLock (finallyUpd r.2 r.1.2 0))
  | .ok fr newOff =>
    if fr.crc = c.crc32 fr.body then
      let u :=
        if newOff > bucket_size then
          let s5 := cleanup s4 (frnum - 1)
          (openRead s5 (frnum + 1), 0, sync_age)
        else (s4, newOff, age)
      let s7 := u.1
      let off2 := u.2.1
      let age2 := u.2.2
      let s8 : QState :=
        if off2 < fileSize (getFileD s7.files (s7.frnum.getD frnum))
        then { s7 with sem := s7.sem + 1 } else s7
      let s9 := relLock (finallyUpd s8 off2 age2)
      if fr.body = [] then .done .rawEmpty s9
      else
        match c.loads (c.decompress fr.body) with
        | some v => .done (.payload v) s9
        | none => .done .loadErr s9
    else
      let r := updatePos s4 none none
      .again (relLock (finallyUpd r.2 r.1.2 0))

/-- The `while True` loop of `get`, with fuel. -/
def getLoop {α : Type} (c : Codec α) (wa : Option Nat) : Nat → QState → GetOut α × QState
  | 0, s => (.noFuel, s)
  | fuel + 1, s =>
    match getStep c wa s with
    | .done out s' => (out, s')
    | .again s' => getLoop c wa fuel s'

/-- The timeout handed to the pending-item acquire at fqueue.py:171, the Python
expression `block and timeout or 0` under Python truthiness: `False`, `None`
and `0` are falsy, so the result is `timeout` only when `block` is true and
`timeout` is a non-zero number, and `0` otherwise.  `none` stands for `None`
(infinite wait). -/
def semWaitArg (blck : Bool) (tmo : Option Nat) : Option Nat :=
  match blck, tmo with
  | true, some t => if t = 0 then some 0 else some t
  | true, none => some 0
  | false, _ => some 0

/-- Modelled from the spec: the acquire timeout `timeout if block else 0`, with
`None` meaning an infinite wait (spec §4.6.2 step 1 and §4.2). -/
def semWaitArgSpec (blck : Bool) (tmo : Option Nat) : Option Nat :=
  if blck then tmo else some 0

/-- `get(block, timeout)` (fqueue.py:167-228). -/
def getFq {α : Type} (c : Codec α) (fuel : Nat) (s : QState) (blck : Bool)
    (tmo : Option Nat) : GetOut α × QState :=
  getLoop c (semWaitArg blck tmo) fuel s

/-- Modelled from the spec: `get` as specified, whose pending-item acquire
receives `timeout if block else 0` (spec §4.6.2 step 1); it differs from
`getFq` only in the timeout expression of fqueue.py:171. -/
def getFqSpec {α : Type} (c : Codec α) (fuel : Nat) (s : QState) (blck : Bool)
    (tmo : Option Nat) : GetOut α × QState :=
  getLoop c (semWaitArgSpec blck tmo) fuel s

/-- A queue name nobody has used: no files, no position file, zero-filled
shared memory, both semaphores created with initial value 1 (fqueue.py:84-85). -/
def blankFS : QState :=
  { files := [], posData := .absent, shm := none, sem := 1, lck := 1,
    frnum := none, fwnum := none }

/-- `__init__` (fqueue.py:79-104): when `name.pos` does not exist, write the
`(0, 0, 0)` triple to shared memory and to a fresh `name.pos`; read the
position back through `_update_pos()` and open the write bucket there. -/
def initQueue (s : QState) : QState :=
  let s1 := if s.posData = .absent
            then { s with shm := some (0, 0, 0), posData := .initTriple }
            else s
  let r := updatePos s1 none none
  openWrite r.2 r.1.1

/-- The state of a freshly created queue. -/
def freshState : QState := initQueue blankFS

/-- A concrete codec used to instantiate witnesses: payloads are byte lists,
serialization is the identity, compression prepends one header byte (hence is
never empty and inverts by dropping it), and the checksum is the byte sum. -/
def natCodec : Codec (List Nat) :=
  { dumps := id, loads := some,
    compress := fun l => 9 :: l, decompress := fun l => l.tail,
    crc32 := fun l => Int.ofNat l.sum }

/-- All existing buckets at numbers `≤ k` form a contiguous run up to `k`:
whenever a lower bucket exists, every bucket between it and `k` exists too.
This is how the segmented log looks in any run of the program, and it is what
makes the stop-at-first-gap loop of `_cleanup` remove everything below its
argument. -/
def ContigBelow (fs : FileStore) (k : Int) : Prop :=
  ∀ i j : Int, i ≤ j → j ≤ k → existsF fs i = true → existsF fs j = true

/-- The frame `put` writes for value `v`: the stored crc is computed over the
compressed bytes, not over the original payload (fqueue.py:231-232). -/
def putFrame {α : Type} (c : Codec α) (v : α) : Frame :=
  ⟨c.crc32 (c.compress (c.dumps v)), c.compress (c.dumps v)⟩

/-- A queue holding one valid record of body `[3]` (stored crc `3` matches
`natCodec.crc32 [3]`), with the shared-memory age counter at `499 = sync_age - 1`
and the durable position at `(0, 0)`. -/
def cexC2 : QState :=
  { files := [(0, [⟨3, [3]⟩])], posData := .pair 0 0, shm := some (0, 0, 499),
    sem := 1, lck := 1, frnum := some 0, fwnum := some 0 }

/-- A body long enough that a single frame passes the rotation threshold. -/
def bigBody : List Nat := List.replicate (bucket_size + 1) 0

/-- A queue whose bucket 0 holds one crc-valid oversized record (crc `0`
matches `natCodec.crc32 bigBody = 0`), so the next `get` rotates. -/
def cexC5 : QState :=
  { files := [(0, [⟨0, bigBody⟩])], posData := .pair 0 0, shm := some (0, 0, 0),
    sem := 1, lck := 1, frnum := some 0, fwnum := some 0 }

/-- A queue whose live position points into the middle of a stored frame, so
the next decode attempt fails as corrupt; the durable position is `(0, 2)`. -/
def cexC6 : QState :=
  { files := [(0, [⟨3, [3]⟩])], posData := .pair 0 2, shm := some (0, 5, 7),
    sem := 1, lck := 1, frnum := some 0, fwnum := some 0 }

/-! Basic lemmas about the file store. -/

theorem lookupF_cons (i : Int) (g : File) (tl : FileStore) (j : Int) :
    lookupF ((i, g) :: tl) j = if i = j then some g else lookupF tl j := rfl

theorem lookupF_removeF (fs : FileStore) (k j : Int) :
    lookupF (removeF fs k) j = if j = k then none else lookupF fs j := by
  induction fs with
  | nil => simp only [removeF, lookupF]; split <;> rfl
  | cons hd tl ih =>
    obtain ⟨i, g⟩ := hd
    by_cases h1 : i = k
    · have hr : removeF ((i, g) :: tl) k = removeF tl k := by
        simp [removeF, h1]
      rw [hr, ih, lookupF_cons]
      by_cases h2 : j = k
      · simp [h2]
      · rw [if_neg h2, if_neg h2, if_neg (fun h => h2 (h1 ▸ h.symm))]
    · have hr : removeF ((i, g) :: tl) k = (i, g) :: removeF tl k := by
        simp [removeF, h1]
      rw [hr, lookupF_cons, lookupF_cons]
      by_cases h2 : i = j
      · rw [if_pos h2, if_pos h2, if_neg (fun h => h1 (h2.symm ▸ h))]
      · rw [if_neg h2, if_neg h2, ih]

theorem removeF_length_le (fs : FileStore) (k : Int) :
    (removeF fs k).length ≤ fs.length := by
  induction fs with
  | nil => simp [removeF]
  | cons hd tl ih =>
    obtain ⟨i, g⟩ := hd
    simp only [removeF]
    split
    · exact Nat.le_succ_of_le ih
    · simp only [List.length_cons]; omega

theorem removeF_length_lt (fs : FileStore) (k : Int) (h : existsF fs k = true) :
    (removeF fs k).length < fs.length := by
  induction fs with
  | nil => simp [existsF, lookupF] at h
  | cons hd tl ih =>
    obtain ⟨i, g⟩ := hd
    simp only [removeF]
    by_cases h1 : i = k
    · rw [if_pos h1]
      have := removeF_length_le tl k
      simp only [List.length_cons]
      omega
    · rw [if_neg h1]
      simp only [List.length_cons]
      have h2 : existsF tl k = true := by
        simp only [existsF, lookupF_cons, if_neg h1] at h
        exact h
      have := ih h2
      omega

theorem lookupF_setF (fs : FileStore) (k : Int) (g : File) (j : Int) :
    lookupF (setF fs k g) j = if j = k then some g else lookupF fs j := by
  induction fs with
  | nil =>
    show lookupF [(k, g)] j = _
    rw [lookupF_cons]
    by_cases h : j = k
    · rw [if_pos h, if_pos h.symm]
    · rw [if_neg h, if_neg (fun h2 => h h2.symm)]
  | cons hd tl ih =>
    obtain ⟨i, gi⟩ := hd
    by_cases h1 : i = k
    · have hs : setF ((i, gi) :: tl) k g = (k, g) :: tl := by
        simp [setF, h1]
      rw [hs, lookupF_cons, lookupF_cons]
      by_cases h2 : j = k
      · rw [if_pos h2, if_pos h2.symm]
      · rw [if_neg h2, if_neg (fun h => h2 h.symm), if_neg (fun h => h2 (h1 ▸ h.symm))]
    · have hs : setF ((i, gi) :: tl) k g = (i, gi) :: setF tl k g := by
        simp [setF, h1]
      rw [hs, lookupF_cons, lookupF_cons]
      by_cases h2 : i = j
      · rw [if_pos h2, if_pos h2, if_neg (fun h => h1 (h2.symm ▸ h))]
      · rw [if_neg h2, if_neg h2, ih]

theorem cleanupAux_lookup_gt :
    ∀ (fuel : Nat) (fs : FileStore) (k j : Int), k < j →
      lookupF (cleanupAux fuel fs k) j = lookupF fs j := by
  intro fuel
  induction fuel with
  | zero => intro fs k j _; rfl
  | succ n ih =>
    intro fs k j hkj
    simp only [cleanupAux]
    split
    · rw [ih (removeF fs k) (k - 1) j (by omega), lookupF_removeF]
      have : ¬ j = k := by omega
      simp [this]
    · rfl

theorem cleanupAux_subset :
    ∀ (fuel : Nat) (fs : FileStore) (k j : Int),
      existsF (cleanupAux fuel fs k) j = true → existsF fs j = true := by
  intro fuel
  induction fuel with
  | zero => intro fs k j h; exact h
  | succ n ih =>
    intro fs k j h
    simp only [cleanupAux] at h
    split at h
    · have h2 := ih (removeF fs k) (k - 1) j h
      simp only [existsF, lookupF_removeF] at h2
      split at h2
      · simp at h2
      · exact h2
    · exact h

theorem cleanupAux_clears :
    ∀ (fuel : Nat) (fs : FileStore) (k : Int), fs.length < fuel →
      ContigBelow fs k → ∀ j : Int, j ≤ k →
        existsF (cleanupAux fuel fs k) j = false := by
  intro fuel
  induction fuel with
  | zero => intro fs k h; omega
  | succ n ih =>
    intro fs k hlen hc j hj
    simp only [cleanupAux]
    split
    · rename_i hex
      by_cases hjk : j = k
      · subst hjk
        cases hres : existsF (cleanupAux n (removeF fs j) (j - 1)) j
        · rfl
        · have h2 := cleanupAux_subset n (removeF fs j) (j - 1) j hres
          simp [existsF, lookupF_removeF] at h2
      · have hlen2 : (removeF fs k).length < n := by
          have := removeF_length_lt fs k hex
          omega
        have hc2 : ContigBelow (removeF fs k) (k - 1) := by
          intro i2 j2 hij hjk2 hex2
          simp only [existsF, lookupF_removeF] at hex2 ⊢
          split at hex2
          · simp at hex2
          · have : ¬ j2 = k := by omega
            simp only [this, if_false]
            exact hc i2 j2 hij (by omega) hex2
        exact ih (removeF fs k) (k - 1) hlen2 hc2 j (by omega)
    · rename_i hex
      cases hres : existsF fs j
      · rfl
      · exact absurd (hc j k hj le_rfl hres) (by simpa using hex)

theorem existsF_of_decode_ne_eof (fs : FileStore) (k : Int) (off : Nat)
    (h : decodeAt (getFileD fs k) off ≠ DecRes.eof) : existsF fs k = true := by
  cases hl : lookupF fs k with
  | none => exact absurd (by simp [getFileD, hl, decodeAt]) h
  | some g => simp [existsF, hl]

theorem openRead_of_exists (s : QState) (k : Int) (h : existsF s.files k = true) :
    openRead s k = { s with frnum := some k } := by
  unfold openRead
  split
  · rename_i hfr
    cases s
    simp_all
  · simp [h]

@[simp] theorem relLock_files (s : QState) : (relLock s).files = s.files := rfl
@[simp] theorem relLock_frnum (s : QState) : (relLock s).frnum = s.frnum := rfl
@[simp] theorem relLock_shm (s : QState) : (relLock s).shm = s.shm := rfl
@[simp] theorem relLock_posData (s : QState) : (relLock s).posData = s.posData := rfl
@[simp] theorem relLock_sem (s : QState) : (relLock s).sem = s.sem := rfl
@[simp] theorem relLock_fwnum (s : QState) : (relLock s).fwnum = s.fwnum := rfl
@[simp] theorem relLock_lck (s : QState) : (relLock s).lck = s.lck + 1 := rfl

@[simp] theorem finallyUpd_files (s : QState) (o a : Nat) :
    (finallyUpd s o a).files = s.files := by
  unfold finallyUpd updatePos updatePosTr
  split <;> rfl

@[simp] theorem finallyUpd_frnum (s : QState) (o a : Nat) :
    (finallyUpd s o a).frnum = s.frnum := by
  unfold finallyUpd updatePos updatePosTr
  split <;> rfl

@[simp] theorem finallyUpd_fwnum (s : QState) (o a : Nat) :
    (finallyUpd s o a).fwnum = s.fwnum := by
  unfold finallyUpd updatePos updatePosTr
  split <;> rfl

@[simp] theorem finallyUpd_sem (s : QState) (o a : Nat) :
    (finallyUpd s o a).sem = s.sem := by
  unfold finallyUpd updatePos updatePosTr
  split <;> rfl

@[simp] theorem finallyUpd_lck (s : QState) (o a : Nat) :
    (finallyUpd s o a).lck = s.lck := by
  unfold finallyUpd updatePos updatePosTr
  split <;> rfl

theorem finallyUpd_shm (s : QState) (o a : Nat) :
    (finallyUpd s o a).shm =
      some (s.frnum.getD 0, o, (if sync_age ≤ a then 0 else a) + 1) := by
  unfold finallyUpd updatePos updatePosTr
  by_cases h : sync_age ≤ a
  · simp [h]
  · simp [h]

theorem finallyUpd_posData (s : QState) (o a : Nat) :
    (finallyUpd s o a).posData =
      if sync_age ≤ a then PosData.pair (s.frnum.getD 0) o else s.posData := by
  unfold finallyUpd updatePos updatePosTr
  by_cases h : sync_age ≤ a
  · simp [h]
  · simp [h]

theorem frameSize_pos (f : Frame) : 0 < frameSize f := by
  simp [frameSize]

theorem decodeAt_zero (f : Frame) (rest : File) :
    decodeAt (f :: rest) 0 = DecRes.ok f (frameSize f) := by
  simp [decodeAt]

theorem decodeAt_cons_size (f : Frame) (rest : File) (m : Nat) :
    decodeAt (f :: rest) (frameSize f + m) =
      match decodeAt rest m with
      | .ok g n => .ok g (frameSize f + n)
      | r => r := by
  have h1 : frameSize f + m ≠ 0 := by have := frameSize_pos f; omega
  have h2 : ¬ frameSize f + m < frameSize f := by omega
  simp only [decodeAt, if_neg h1, if_neg h2, Nat.add_sub_cancel_left]

/-! Symbolic evaluation of one `get` iteration. -/

theorem getStep_ok {α : Type} (c : Codec α) (wa : Option Nat) (s : QState) (k : Int)
    (off age newOff m l : Nat) (fr : Frame)
    (hsem : s.sem = m + 1) (hlck : s.lck = l + 1)
    (hshm : s.shm = some (k, off, age))
    (hdec : decodeAt (getFileD s.files k) off = DecRes.ok fr newOff)
    (hcrc : fr.crc = c.crc32 fr.body) :
    getStep c wa s =
      (let s4 : QState := { s with sem := m, lck := l, frnum := some k }
      let u := if bucket_size < newOff
               then (openRead (cleanup s4 (k - 1)) (k + 1), 0, sync_age)
               else (s4, newOff, age)
      let s8 : QState :=
        if u.2.1 < fileSize (getFileD u.1.files (u.1.frnum.getD k))
        then { u.1 with sem := u.1.sem + 1 } else u.1
      let s9 := relLock (finallyUpd s8 u.2.1 u.2.2)
      if fr.body = [] then StepRes.done GetOut.rawEmpty s9
      else
        match c.loads (c.decompress fr.body) with
        | some v => StepRes.done (GetOut.payload v) s9
        | none => StepRes.done GetOut.loadErr s9) := by
  have hex : existsF s.files k = true := by
    refine existsF_of_decode_ne_eof s.files k off ?_
    rw [hdec]
    intro h
    cases h
  obtain ⟨files, posData, shm, sem, lck, frnum, fwnum⟩ := s
  simp only at hsem hlck hshm hdec hex
  subst hsem hlck hshm
  simp only [getStep, Nat.succ_ne_zero, if_false, Nat.add_sub_cancel]
  rw [openRead_of_exists _ _ hex]
  simp only [hdec, if_pos hcrc]

theorem getStep_bad {α : Type} (c : Codec α) (wa : Option Nat) (s : QState) (k : Int)
    (off age m l : Nat)
    (hsem : s.sem = m + 1) (hlck : s.lck = l + 1)
    (hshm : s.shm = some (k, off, age))
    (hbad : decodeAt (getFileD s.files k) off = DecRes.corrupt ∨
        ∃ fr newOff, decodeAt (getFileD s.files k) off = DecRes.ok fr newOff ∧
          ¬ fr.crc = c.crc32 fr.body) :
    getStep c wa s = StepRes.again
      { s with
        sem := m
        frnum := some k
        shm := some (k, ((loadPair s.posData).getD (0, 0)).2, 1) } := by
  have hex : existsF s.files k = true := by
    refine existsF_of_decode_ne_eof s.files k off ?_
    rcases hbad with h | ⟨fr, newOff, h, _⟩ <;> rw [h] <;> intro h2 <;> cases h2
  obtain ⟨files, posData, shm, sem, lck, frnum, fwnum⟩ := s
  simp only at hsem hlck hshm hbad hex ⊢
  subst hsem hlck hshm
  simp only [getStep, Nat.succ_ne_zero, if_false, Nat.add_sub_cancel]
  rw [openRead_of_exists _ _ hex]
  rcases hbad with h | ⟨fr, newOff, h, hc⟩
  · simp only [h]
    unfold finallyUpd updatePos updatePosTr relLock
    simp [sync_age]
  · simp only [h, if_neg hc]
    unfold finallyUpd updatePos updatePosTr relLock
    simp [sync_age]

@[simp] theorem cleanup_posData (s : QState) (k : Int) :
    (cleanup s k).posData = s.posData := rfl
@[simp] theorem cleanup_shm (s : QState) (k : Int) : (cleanup s k).shm = s.shm := rfl
@[simp] theorem cleanup_sem (s : QState) (k : Int) : (cleanup s k).sem = s.sem := rfl
@[simp] theorem cleanup_lck (s : QState) (k : Int) : (cleanup s k).lck = s.lck := rfl
@[simp] theorem cleanup_frnum (s : QState) (k : Int) :
    (cleanup s k).frnum = s.frnum := rfl
@[simp] theorem cleanup_fwnum (s : QState) (k : Int) :
    (cleanup s k).fwnum = s.fwnum := rfl
theorem cleanup_files (s : QState) (k : Int) :
    (cleanup s k).files = cleanupAux (s.files.length + 1) s.files k := rfl

@[simp] theorem openRead_frnum (s : QState) (k : Int) :
    (openRead s k).frnum = some k := by
  unfold openRead
  split
  · rename_i h
    exact h
  · split <;> rfl

@[simp] theorem openRead_posData (s : QState) (k : Int) :
    (openRead s k).posData = s.posData := by
  unfold openRead
  split
  · rfl
  · split <;> rfl

@[simp] theorem openRead_shm (s : QState) (k : Int) :
    (openRead s k).shm = s.shm := by
  unfold openRead
  split
  · rfl
  · split <;> rfl

@[simp] theorem openRead_sem (s : QState) (k : Int) :
    (openRead s k).sem = s.sem := by
  unfold openRead
  split
  · rfl
  · split <;> rfl

@[simp] theorem openRead_lck (s : QState) (k : Int) :
    (openRead s k).lck = s.lck := by
  unfold openRead
  split
  · rfl
  · split <;> rfl

@[simp] theorem openRead_fwnum (s : QState) (k : Int) :
    (openRead s k).fwnum = s.fwnum := by
  unfold openRead
  split
  · rfl
  · split <;> rfl

theorem openRead_lookupF_ne (s : QState) (k j : Int) (h : j ≠ k) :
    lookupF (openRead s k).files j = lookupF s.files j := by
  unfold openRead
  split
  · rfl
  · split
    · rfl
    · rw [lookupF_cons, if_neg (show ¬ k = j from fun h2 => h h2.symm)]

theorem cleanup_lookupF_gt (s : QState) (k j : Int) (h : k < j) :
    lookupF (cleanup s k).files j = lookupF s.files j :=
  cleanupAux_lookup_gt (s.files.length + 1) s.files k j h

theorem peekIf_shape (s : QState) (cond : Prop) [Decidable cond] :
    (if cond then ({ s with sem := s.sem + 1 } : QState) else s) =
      { s with sem := (if cond then s.sem + 1 else s.sem) } := by
  split <;> rfl

/-- `put` on a state with an open write bucket: the record is appended and the
pending-item count raised, then the write bucket is rotated when the offset
passed the threshold. -/
theorem putQ_ok {α : Type} (c : Codec α) (s : QState) (v : α) (b : Bool)
    (t : Option Nat) (fw : Int) (h : s.fwnum = some fw) :
    putQ c s v b t = Except.ok
      (let g := getFileD s.files fw ++ [putFrame c v]
       let s1 : QState := { s with files := setF s.files fw g, sem := s.sem + 1 }
       if fileSize g > bucket_size then openWrite s1 (fw + 1) else s1) := by
  simp only [putQ, putTr, h, putFrame, Except.map]
  split <;> rfl

theorem freshState_eq :
    freshState = { files := [(0, [])], posData := PosData.initTriple,
                   shm := some (0, 0, 0), sem := 1, lck := 1, frnum := none,
                   fwnum := some 0 } := by
  decide

/-- One `get` call on a state whose live position decodes a crc-valid record:
the call returns in its first loop iteration with the decoded payload and the
state produced by the rotation check, the peek re-release and the final
position update. -/
theorem getFq_one_ok {α : Type} (c : Codec α) (blck : Bool) (tmo : Option Nat)
    (s : QState) (k : Int) (off age newOff m l : Nat) (fr : Frame)
    (hsem : s.sem = m + 1) (hlck : s.lck = l + 1)
    (hshm : s.shm = some (k, off, age))
    (hdec : decodeAt (getFileD s.files k) off = DecRes.ok fr newOff)
    (hcrc : fr.crc = c.crc32 fr.body) :
    getFq c 1 s blck tmo =
      (let s4 : QState := { s with sem := m, lck := l, frnum := some k }
       let u := if bucket_size < newOff
                then (openRead (cleanup s4 (k - 1)) (k + 1), 0, sync_age)
                else (s4, newOff, age)
       let s8 : QState :=
         if u.2.1 < fileSize (getFileD u.1.files (u.1.frnum.getD k))
         then { u.1 with sem := u.1.sem + 1 } else u.1
       ((if fr.body = [] then GetOut.rawEmpty
         else match c.loads (c.decompress fr.body) with
           | some v => GetOut.payload v
           | none => GetOut.loadErr),
        relLock (finallyUpd s8 u.2.1 u.2.2))) := by
  have hstep := getStep_ok c (semWaitArg blck tmo) s k off age newOff m l fr
    hsem hlck hshm hdec hcrc
  simp only [getFq, getLoop]
  rw [hstep]
  by_cases hbody : fr.body = []
  · simp [hbody]
  · simp only [if_neg hbody]
    cases c.loads (c.decompress fr.body) <;> simp

/-- Whatever path one `get` iteration takes to return a payload, the payload
comes from a frame that is still on disk in the result state, whose stored crc
matches the crc of its stored body. -/
theorem getStep_payload_sound {α : Type} (c : Codec α) (wa : Option Nat)
    (s s' : QState) (v : α)
    (h : getStep c wa s = StepRes.done (GetOut.payload v) s') :
    ∃ (kk : Int) (o2 n2 : Nat) (fr : Frame),
      decodeAt (getFileD s'.files kk) o2 = DecRes.ok fr n2 ∧
      fr.crc = c.crc32 fr.body ∧ fr.body ≠ [] ∧
      c.loads (c.decompress fr.body) = some v := by
  obtain ⟨files, posData, shm, sem, lck, frn, fwn⟩ := s
  cases sem with
  | zero =>
    cases wa <;> simp [getStep] at h
  | succ m =>
    cases lck with
    | zero =>
      unfold getStep at h
      simp at h
    | succ l =>
      unfold getStep at h
      dsimp only at h
      rw [if_neg (Nat.succ_ne_zero m)] at h
      rw [if_neg (Nat.succ_ne_zero l)] at h
      simp only [Nat.add_sub_cancel] at h
      cases shm with
      | some trip =>
        obtain ⟨k, off, age⟩ := trip
        dsimp only at h
        split at h
        case h_1 => simp at h
        case h_2 => simp at h
        case h_3 fr newOff heq =>
          split at h
          case isFalse => simp at h
          case isTrue hcrc =>
            split at h
            case isTrue => simp at h
            case isFalse hbody =>
              split at h
              case h_2 => simp at h
              case h_1 w heq2 =>
                rw [StepRes.done.injEq] at h
                obtain ⟨h1, h2⟩ := h
                rw [GetOut.payload.injEq] at h1
                subst h1
                refine ⟨k, off, newOff, fr, ?_, hcrc, hbody, heq2⟩
                rw [← h2]
                simp only [relLock_files, finallyUpd_files,
                  apply_ite QState.files, ite_self]
                split
                · simp only [getFileD] at heq ⊢
                  rw [openRead_lookupF_ne _ _ _ (by omega),
                    cleanup_lookupF_gt _ _ _ (by omega)]
                  exact heq
                · exact heq
      | none =>
        dsimp only at h
        simp only [updatePos, updatePosTr] at h
        split at h
        case h_1 => simp at h
        case h_2 => simp at h
        case h_3 fr newOff heq =>
          split at h
          case isFalse => simp at h
          case isTrue hcrc =>
            split at h
            case isTrue => simp at h
            case isFalse hbody =>
              split at h
              case h_2 => simp at h
              case h_1 w heq2 =>
                rw [StepRes.done.injEq] at h
                obtain ⟨h1, h2⟩ := h
                rw [GetOut.payload.injEq] at h1
                subst h1
                refine ⟨((loadPair posData).getD (0, 0)).1,
                  ((loadPair posData).getD (0, 0)).2, newOff, fr, ?_, hcrc,
                  hbody, heq2⟩
                rw [← h2]
                simp only [relLock_files, finallyUpd_files,
                  apply_ite QState.files, ite_self]
                split
                · simp only [getFileD] at heq ⊢
                  rw [openRead_lookupF_ne _ _ _ (by omega),
                    cleanup_lookupF_gt _ _ _ (by omega)]
                  exact heq
                · exact heq

/-- Lifting of `getStep_payload_sound` to the whole consumer loop. -/
theorem getLoop_payload_sound {α : Type} (c : Codec α) (wa : Option Nat) :
    ∀ (fuel : Nat) (s0 : QState) (v : α) (r : GetOut α × QState),
      getLoop c wa fuel s0 = r → r.1 = GetOut.payload v →
      ∃ (kk : Int) (o2 n2 : Nat) (fr : Frame),
        decodeAt (getFileD r.2.files kk) o2 = DecRes.ok fr n2 ∧
        fr.crc = c.crc32 fr.body ∧ fr.body ≠ [] ∧
        c.loads (c.decompress fr.body) = some v := by
  intro fuel
  induction fuel with
  | zero =>
    intro s0 v r h1 h2
    rw [← h1] at h2
    simp [getLoop] at h2
  | succ n ih =>
    intro s0 v r h1 h2
    simp only [getLoop] at h1
    cases hstep : getStep c wa s0 with
    | done out s1 =>
      rw [hstep] at h1
      dsimp only at h1
      subst h1
      dsimp only at h2
      subst h2
      exact getStep_payload_sound c wa s0 s1 v hstep
    | again s1 =>
      rw [hstep] at h1
      exact ih s1 v r h1 h2

/-! The claims. -/

/-- C1: the claim says `get(block=True, timeout=None)` blocks indefinitely on
the pending-item semaphore because the acquire timeout is
`timeout if block else 0` with `None` meaning an infinite wait.  The code at
fqueue.py:171 instead computes `block and timeout or 0`, and in Python
`True and None or 0` evaluates to `0`, a non-blocking acquire: on a fresh empty
queue, `get(block=True, timeout=None)` raises `Queue.Empty` immediately where
the claimed semantics (`getFqSpec`, the spec-modelled variant) would block
forever awaiting a producer signal. -/
theorem claim_C1 :
    semWaitArg true none = some 0 ∧
    semWaitArgSpec true none = none ∧
    (getFq natCodec 5 freshState true none).1 = GetOut.empty ∧
    (getFqSpec natCodec 5 freshState true none).1 = GetOut.blocked := by
  refine ⟨rfl, rfl, ?_, ?_⟩ <;> decide

/-- C8: on a freshly created queue (pending-item semaphore created with initial
value 1), `get(block=False)` fails with `Empty` and returns no payload: the
first loop iteration consumes the spurious initial token, observes end-of-file
in the empty bucket 0 and writes `(0, 0, 1)` to the shared-memory mirror, and
the second non-blocking acquire fails. -/
theorem claim_C8 :
    freshState.sem = 1 ∧
    (getFq natCodec 2 freshState false none).1 = GetOut.empty ∧
    (getFq natCodec 2 freshState false none).2.shm = some (0, 0, 1) := by
  refine ⟨rfl, ?_, ?_⟩ <;> decide

/-- C2 counterexample: the claim says the durable position file is rewritten
exactly when `age + 1 >= SYNC_AGE` or a rotation was forced.  On `cexC2` the
age read from shared memory is `499`, so `age + 1 = 500 >= SYNC_AGE`, the read
succeeds (payload returned) and no rotation is forced (the new offset `11` is
below `bucket_size`), yet the code's test `age >= sync_age` (fqueue.py:220) is
false: the durable file keeps its old `(0, 0)` content instead of being
rewritten to the new position `(0, 11)`, and the age is not reset (the mirror
receives `500`, not `1`). -/
theorem claim_C2_counterexample :
    sync_age ≤ 499 + 1 ∧
    (11 ≤ bucket_size) ∧
    (getFq natCodec 1 cexC2 true (some 1)).1 = GetOut.payload [] ∧
    (getFq natCodec 1 cexC2 true (some 1)).2.posData = PosData.pair 0 0 ∧
    PosData.pair 0 0 ≠ PosData.pair 0 11 ∧
    (getFq natCodec 1 cexC2 true (some 1)).2.shm = some (0, 11, 500) := by
  refine ⟨by decide, by decide, ?_, ?_, by decide, ?_⟩ <;> decide

/-- C2 (amended): in `get`'s final position update after a successful decode,
the durable position file is rewritten (and the age counter reset to 0) exactly
when `age >= SYNC_AGE` — where `age` is the value read from the shared-memory
mirror, and a forced bucket rotation sets `age = SYNC_AGE`, hence always
triggers the rewrite (the code tests `age >= sync_age`, not
`age + 1 >= SYNC_AGE` as claimed) — and `(frnum, offset, age + 1)` with the
post-reset age is then written to the shared-memory mirror; consequently the
durable position is only ever rewritten to the current live position (never
beyond true progress), and a live age within `SYNC_AGE` stays within
`SYNC_AGE`, so the durable copy lags by at most `SYNC_AGE` reads. -/
theorem claim_C2 {α : Type} (c : Codec α) (s : QState) (k : Int)
    (off age newOff m l : Nat) (fr : Frame)
    (hsem : s.sem = m + 1) (hlck : s.lck = l + 1)
    (hshm : s.shm = some (k, off, age))
    (hdec : decodeAt (getFileD s.files k) off = DecRes.ok fr newOff)
    (hcrc : fr.crc = c.crc32 fr.body) :
    (let rot := bucket_size < newOff
     let k' := if rot then k + 1 else k
     let off' := if rot then 0 else newOff
     let age' := if rot then sync_age else age
     let s' := (getFq c 1 s true (some 1)).2
     (s'.posData = if sync_age ≤ age' then PosData.pair k' off' else s.posData) ∧
     s'.shm = some (k', off', (if sync_age ≤ age' then 0 else age') + 1) ∧
     (s'.posData = s.posData ∨ s'.posData = PosData.pair k' off') ∧
     (age ≤ sync_age → ∀ kk oo aa, s'.shm = some (kk, oo, aa) →
        aa ≤ sync_age)) := by
  rw [getFq_one_ok c true (some 1) s k off age newOff m l fr hsem hlck hshm
    hdec hcrc]
  by_cases hrot : bucket_size < newOff
  · simp only [if_pos hrot, relLock_posData, relLock_shm,
      finallyUpd_posData, finallyUpd_shm, apply_ite QState.posData,
      apply_ite QState.frnum, openRead_frnum, openRead_posData,
      cleanup_posData, ite_self, le_refl, if_true, Option.getD_some]
    refine ⟨trivial, trivial, Or.inr trivial, ?_⟩
    intro _ kk oo aa haa
    cases haa
    simp [sync_age]
  · simp only [if_neg hrot, relLock_posData, relLock_shm,
      finallyUpd_posData, finallyUpd_shm, apply_ite QState.posData,
      apply_ite QState.frnum, ite_self, Option.getD_some]
    refine ⟨trivial, trivial, ?_, ?_⟩
    · by_cases hage : sync_age ≤ age
      · simp [hage]
      · simp [hage]
    · intro hle kk oo aa haa
      by_cases hage : sync_age ≤ age
      · rw [if_pos hage] at haa
        cases haa
        simp [sync_age]
      · rw [if_neg hage] at haa
        cases haa
        omega

/-- Witness for the amended C2: on `cexC2` (age 499, below the threshold) the
durable file is untouched; with the age raised to 500 it is rewritten to the
live position `(0, 11)` and the mirror age resets. -/
theorem claim_C2_witness :
    decodeAt (getFileD cexC2.files 0) 0 = DecRes.ok ⟨3, [3]⟩ 11 ∧
    (3 : Int) = natCodec.crc32 [3] ∧
    ((getFq natCodec 1 cexC2 true (some 1)).2.posData =
        if sync_age ≤ (if bucket_size < 11 then sync_age else 499)
        then PosData.pair (if bucket_size < 11 then (0 : Int) + 1 else 0)
               (if bucket_size < 11 then 0 else 11)
        else cexC2.posData) :=
  ⟨by decide, by decide,
   (claim_C2 natCodec cexC2 0 0 499 11 0 0 ⟨3, [3]⟩ rfl rfl rfl (by decide)
     (by decide)).1⟩

/-- C5: whenever a successful crc-valid decode inside `get` leaves the read
offset strictly greater than `bucket_size` on bucket `k`, that same call
unlinks bucket `k - 1` and every existing bucket below it (the buckets below
`k` forming a contiguous run, as they do in every run of the program), switches
the read handle to bucket `k + 1`, forces the age to `sync_age` so the durable
position is updated to `(k + 1, 0)` in the same call, and resets the live
offset to 0; afterwards buckets `k - 1` and below no longer exist on disk. -/
theorem claim_C5 {α : Type} (c : Codec α) (s : QState) (k : Int)
    (off age newOff m l : Nat) (fr : Frame)
    (hsem : s.sem = m + 1) (hlck : s.lck = l + 1)
    (hshm : s.shm = some (k, off, age))
    (hdec : decodeAt (getFileD s.files k) off = DecRes.ok fr newOff)
    (hcrc : fr.crc = c.crc32 fr.body)
    (hrot : newOff > bucket_size)
    (hcontig : ContigBelow s.files (k - 1)) :
    (let s' := (getFq c 1 s true (some 1)).2
     (∀ j : Int, j ≤ k - 1 → existsF s'.files j = false) ∧
     s'.frnum = some (k + 1) ∧
     s'.posData = PosData.pair (k + 1) 0 ∧
     s'.shm = some (k + 1, 0, 1)) := by
  rw [getFq_one_ok c true (some 1) s k off age newOff m l fr hsem hlck hshm
    hdec hcrc]
  simp only [if_pos hrot]
  refine ⟨?_, ?_, ?_, ?_⟩
  · intro j hj
    simp only [relLock_files, finallyUpd_files, apply_ite QState.files,
      ite_self]
    have h1 : lookupF (openRead (cleanup
          ({ s with sem := m, lck := l, frnum := some k } : QState) (k - 1))
          (k + 1)).files j =
        lookupF (cleanup
          ({ s with sem := m, lck := l, frnum := some k } : QState)
          (k - 1)).files j :=
      openRead_lookupF_ne _ _ _ (by omega)
    have h2 := cleanupAux_clears (s.files.length + 1) s.files (k - 1)
      (by omega) hcontig j hj
    simp only [existsF, h1, cleanup_files] at h2 ⊢
    exact h2
  · simp only [relLock_frnum, finallyUpd_frnum, apply_ite QState.frnum,
      ite_self, openRead_frnum]
  · simp only [relLock_posData, finallyUpd_posData, apply_ite QState.posData,
      apply_ite QState.frnum, ite_self, openRead_frnum, le_refl, if_true,
      Option.getD_some]
  · simp only [relLock_shm, finallyUpd_shm, apply_ite QState.frnum, ite_self,
      openRead_frnum, le_refl, if_true, Option.getD_some]

/-- Witness for C5: one oversized record in bucket 0; the `get` rotates to
bucket 1, durably records `(1, 0)`, and leaves no bucket below 0. -/
theorem claim_C5_witness :
    decodeAt (getFileD cexC5.files 0) 0 =
      DecRes.ok ⟨0, bigBody⟩ (bucket_size + 1 + 10) ∧
    bucket_size + 1 + 10 > bucket_size ∧
    (let s' := (getFq natCodec 1 cexC5 true (some 1)).2
     (∀ j : Int, j ≤ 0 - 1 → existsF s'.files j = false) ∧
     s'.frnum = some (0 + 1) ∧
     s'.posData = PosData.pair (0 + 1) 0 ∧
     s'.shm = some (0 + 1, 0, 1)) := by
  have hlen : bigBody.length = bucket_size + 1 := by
    simp [bigBody]
  have hfile : getFileD cexC5.files 0 = [⟨0, bigBody⟩] := rfl
  have hfs : frameSize ⟨0, bigBody⟩ = bucket_size + 1 + 10 := by
    rw [frameSize]
    rw [show (⟨0, bigBody⟩ : Frame).body = bigBody from rfl]
    rw [hlen]
  have hdec : decodeAt (getFileD cexC5.files 0) 0 =
      DecRes.ok ⟨0, bigBody⟩ (bucket_size + 1 + 10) := by
    rw [hfile, decodeAt_zero, hfs]
  have hsum : bigBody.sum = 0 := by
    simp [bigBody, List.sum_replicate]
  have hcrc : (⟨0, bigBody⟩ : Frame).crc =
      natCodec.crc32 (⟨0, bigBody⟩ : Frame).body := by
    rw [show (⟨0, bigBody⟩ : Frame).body = bigBody from rfl]
    rw [show (⟨0, bigBody⟩ : Frame).crc = (0 : Int) from rfl]
    rw [show natCodec.crc32 bigBody = Int.ofNat bigBody.sum from rfl]
    rw [hsum]
    decide
  have hcontig : ContigBelow cexC5.files (0 - 1) := by
    intro i j hij hjk hex
    simp only [cexC5, existsF, lookupF_cons] at hex
    rw [if_neg (by omega : ¬ (0 : Int) = i)] at hex
    simp [lookupF] at hex
  exact ⟨hdec, by omega,
    claim_C5 natCodec cexC5 0 0 0 (bucket_size + 1 + 10) 0 0 ⟨0, bigBody⟩
      rfl rfl rfl hdec hcrc (by omega) hcontig⟩

/-- C6: when decode inside `get` encounters an unreadable frame or a stored
crc that does not match the crc of the stored body, `get` surfaces no error to
its caller: the iteration re-reads the position from the durable store, resets
the age to 0 (the mirror receives age 1 = 0 + 1), leaves the durable file
untouched, and loops; and every payload any `get` returns comes from a stored
record whose crc equals the crc of its stored (compressed) body. -/
theorem claim_C6 {α : Type} (c : Codec α) (wa : Option Nat) (s : QState)
    (k : Int) (off age m l : Nat)
    (hsem : s.sem = m + 1) (hlck : s.lck = l + 1)
    (hshm : s.shm = some (k, off, age))
    (hbad : decodeAt (getFileD s.files k) off = DecRes.corrupt ∨
        ∃ fr newOff, decodeAt (getFileD s.files k) off = DecRes.ok fr newOff ∧
          ¬ fr.crc = c.crc32 fr.body) :
    (∀ fuel, getLoop c wa (fuel + 1) s =
        getLoop c wa fuel { s with
          sem := m
          frnum := some k
          shm := some (k, ((loadPair s.posData).getD (0, 0)).2, 1) }) ∧
    (∀ fuel s0 v r, getLoop c wa fuel s0 = r → r.1 = GetOut.payload v →
      ∃ (kk : Int) (o2 n2 : Nat) (fr : Frame),
        decodeAt (getFileD r.2.files kk) o2 = DecRes.ok fr n2 ∧
        fr.crc = c.crc32 fr.body ∧ fr.body ≠ [] ∧
        c.loads (c.decompress fr.body) = some v) := by
  constructor
  · intro fuel
    have hstep := getStep_bad c wa s k off age m l hsem hlck hshm hbad
    simp only [getLoop, hstep]
  · intro fuel s0 v r h1 h2
    exact getLoop_payload_sound c wa fuel s0 v r h1 h2

/-- Witness for C6: the live offset 5 points into the middle of the only
stored frame, so decode is corrupt; the loop continues with the position reset
from the durable copy `(0, 2)` and age 1. -/
theorem claim_C6_witness :
    decodeAt (getFileD cexC6.files 0) 5 = DecRes.corrupt ∧
    getLoop natCodec (some 0) 4 cexC6 =
      getLoop natCodec (some 0) 3 { cexC6 with
        sem := 0
        frnum := some 0
        shm := some (0, ((loadPair cexC6.posData).getD (0, 0)).2, 1) } :=
  ⟨by decide,
   (claim_C6 natCodec (some 0) cexC6 0 5 7 0 0 rfl rfl rfl
     (Or.inl (by decide))).1 3⟩

theorem fileSize_nil : fileSize ([] : File) = 0 := rfl

theorem fileSize_cons (f : Frame) (l : File) :
    fileSize (f :: l) = frameSize f + fileSize l := by
  simp [fileSize]

theorem decodeAt_second (f g : Frame) (rest : File) :
    decodeAt (f :: g :: rest) (frameSize f) =
      DecRes.ok g (frameSize f + frameSize g) := by
  have h := decodeAt_cons_size f (g :: rest) 0
  rw [Nat.add_zero] at h
  rw [h, decodeAt_zero]

theorem putFrame_payload {α : Type} (c : Codec α) (v : α)
    (hdcmp : ∀ lb, c.decompress (c.compress lb) = lb)
    (hld : ∀ w, c.loads (c.dumps w) = some w)
    (hne : ∀ lb, c.compress lb ≠ []) :
    (if (putFrame c v).body = [] then GetOut.rawEmpty
     else match c.loads (c.decompress (putFrame c v).body) with
       | some w => GetOut.payload w
       | none => GetOut.loadErr) = GetOut.payload v := by
  rw [if_neg (show ¬ (putFrame c v).body = [] from hne (c.dumps v))]
  rw [show (putFrame c v).body = c.compress (c.dumps v) from rfl, hdcmp, hld]

/-- C7: for every value `v`, the consumer decode inverts the producer encode:
`put` writes the framed pair of `crc32(compressed bytes)` and the compressed
bytes of the serialized value — the stored crc is over the compressed bytes,
not the original payload — and a subsequent `get` crc-checks, decompresses and
deserializes back to `v`.  The external serialization, compression and crc are
assumed only to satisfy their round-trip contracts. -/
theorem claim_C7 {α : Type} (c : Codec α) (v : α)
    (hdcmp : ∀ lb, c.decompress (c.compress lb) = lb)
    (hld : ∀ w, c.loads (c.dumps w) = some w)
    (hne : ∀ lb, c.compress lb ≠ []) :
    ∃ s1, putQ c freshState v true none = Except.ok s1 ∧
      getFileD s1.files 0 = [putFrame c v] ∧
      (putFrame c v).crc = c.crc32 (c.compress (c.dumps v)) ∧
      (putFrame c v).body = c.compress (c.dumps v) ∧
      (getFq c 1 s1 true none).1 = GetOut.payload v := by
  have hfw : freshState.fwnum = some 0 := by rw [freshState_eq]
  have hput := putQ_ok c freshState v true none 0 hfw
  rw [freshState_eq] at hput
  simp [getFileD, lookupF, setF] at hput
  split at hput
  · -- the single record already exceeds the threshold: put rotates to bucket 1
    simp [openWrite, scanW, existsF, lookupF] at hput
    refine ⟨_, hput, ?_, rfl, rfl, ?_⟩
    · simp [getFileD, lookupF]
    · rw [getFq_one_ok c true none _ 0 0 0 (frameSize (putFrame c v)) 1 0
        (putFrame c v) rfl rfl rfl ?_ rfl]
      · dsimp only
        exact putFrame_payload c v hdcmp hld hne
      · rw [show getFileD ([((1 : Int), ([] : File)),
          (0, [putFrame c v])] : FileStore) 0 = [putFrame c v] from by
            simp [getFileD, lookupF]]
        exact decodeAt_zero _ _
  · -- no rotation
    refine ⟨_, hput, ?_, rfl, rfl, ?_⟩
    · simp [getFileD, lookupF]
    · rw [getFq_one_ok c true none _ 0 0 0 (frameSize (putFrame c v)) 1 0
        (putFrame c v) rfl rfl rfl ?_ rfl]
      · dsimp only
        exact putFrame_payload c v hdcmp hld hne
      · rw [show getFileD ([((0 : Int), [putFrame c v])] : FileStore) 0 =
          [putFrame c v] from by simp [getFileD, lookupF]]
        exact decodeAt_zero _ _

/-- Witness for C7 with the concrete codec and payload `[5]`. -/
theorem claim_C7_witness :
    ∃ s1, putQ natCodec freshState [5] true none = Except.ok s1 ∧
      getFileD s1.files 0 = [putFrame natCodec [5]] ∧
      (putFrame natCodec [5]).crc =
        natCodec.crc32 (natCodec.compress (natCodec.dumps [5])) ∧
      (putFrame natCodec [5]).body = natCodec.compress (natCodec.dumps [5]) ∧
      (getFq natCodec 1 s1 true none).1 = GetOut.payload [5] :=
  claim_C7 natCodec [5] (fun lb => rfl) (fun w => rfl)
    (fun lb h => List.noConfusion h)

/-- C3: on a fresh queue, if a single producer calls `put(a)` then `put(b)`
and both succeed, the records are consumed in that order: the first successful
`get` returns `a` and the next successful `get` returns `b`, whether or not
either `put` or the intervening reads trigger a bucket rotation.  The proof
covers all four rotation combinations of the two record sizes. -/
theorem claim_C3 {α : Type} (c : Codec α) (a b : α)
    (hdcmp : ∀ lb, c.decompress (c.compress lb) = lb)
    (hld : ∀ w, c.loads (c.dumps w) = some w)
    (hne : ∀ lb, c.compress lb ≠ []) :
    ∃ s1 s2 s3, putQ c freshState a true none = Except.ok s1 ∧
      putQ c s1 b true none = Except.ok s2 ∧
      getFq c 1 s2 true none = (GetOut.payload a, s3) ∧
      (getFq c 1 s3 true none).1 = GetOut.payload b := by
  have hfw : freshState.fwnum = some 0 := by rw [freshState_eq]
  have hput1 := putQ_ok c freshState a true none 0 hfw
  rw [freshState_eq] at hput1
  simp [getFileD, lookupF, setF, -Prod.mk_zero_zero] at hput1
  split at hput1
  case isFalse h1 =>
    have hA : ¬ bucket_size < frameSize (putFrame c a) := by
      rw [fileSize_cons, fileSize_nil, Nat.add_zero] at h1
      exact h1
    have hput2 := putQ_ok c
      { files := [((0 : Int), [putFrame c a])], posData := PosData.initTriple,
        shm := some (0, 0, 0), sem := 2, lck := 1, frnum := none,
        fwnum := some 0 } b true none 0 rfl
    simp [getFileD, lookupF, setF, -Prod.mk_zero_zero] at hput2
    split at hput2
    case isFalse h2 =>
      have hAB : ¬ bucket_size <
          frameSize (putFrame c a) + frameSize (putFrame c b) := by
        rw [fileSize_cons, fileSize_cons, fileSize_nil, Nat.add_zero] at h2
        exact h2
      have hdec1 : decodeAt (getFileD
          ([((0 : Int), [putFrame c a, putFrame c b])] : FileStore) 0) 0 =
          DecRes.ok (putFrame c a) (frameSize (putFrame c a)) := by
        rw [show getFileD
            ([((0 : Int), [putFrame c a, putFrame c b])] : FileStore) 0
            = [putFrame c a, putFrame c b] from by simp [getFileD, lookupF]]
        exact decodeAt_zero _ _
      have hget1 := getFq_one_ok c true none
        { files := [((0 : Int), [putFrame c a, putFrame c b])],
          posData := PosData.initTriple, shm := some (0, 0, 0), sem := 3,
          lck := 1, frnum := none, fwnum := some 0 }
        0 0 0 (frameSize (putFrame c a)) 2 0 (putFrame c a) rfl rfl rfl hdec1 rfl
      have hpk : frameSize (putFrame c a) <
          frameSize (putFrame c a) + frameSize (putFrame c b) := by
        have := frameSize_pos (putFrame c b)
        omega
      refine ⟨_, _,
        { files := [((0 : Int), [putFrame c a, putFrame c b])],
          posData := PosData.initTriple,
          shm := some (0, frameSize (putFrame c a), 1), sem := 3, lck := 1,
          frnum := some 0, fwnum := some 0 }, hput1, hput2, ?_, ?_⟩
      · rw [hget1]
        dsimp only
        refine Prod.ext (putFrame_payload c a hdcmp hld hne) ?_
        simp [hA, hpk, finallyUpd, updatePos, updatePosTr, relLock, getFileD,
          lookupF, fileSize_cons, fileSize_nil, sync_age, openRead, cleanup,
          cleanupAux, existsF, -Prod.mk_zero_zero]
      · have hdec2 : decodeAt (getFileD
            ([((0 : Int), [putFrame c a, putFrame c b])] : FileStore) 0)
            (frameSize (putFrame c a)) =
            DecRes.ok (putFrame c b)
              (frameSize (putFrame c a) + frameSize (putFrame c b)) := by
          rw [show getFileD
              ([((0 : Int), [putFrame c a, putFrame c b])] : FileStore) 0
              = [putFrame c a, putFrame c b] from by simp [getFileD, lookupF]]
          exact decodeAt_second _ _ _
        rw [getFq_one_ok c true none
          { files := [((0 : Int), [putFrame c a, putFrame c b])],
            posData := PosData.initTriple,
            shm := some (0, frameSize (putFrame c a), 1), sem := 3, lck := 1,
            frnum := some 0, fwnum := some 0 }
          0 (frameSize (putFrame c a)) 1
          (frameSize (putFrame c a) + frameSize (putFrame c b)) 2 0
          (putFrame c b) rfl rfl rfl hdec2 rfl]
        dsimp only
        exact putFrame_payload c b hdcmp hld hne
    case isTrue h2 =>
      -- the two records together pass the threshold: put b rotates to bucket 1
      simp [openWrite, scanW, existsF, lookupF, -Prod.mk_zero_zero] at hput2
      have hAB : bucket_size <
          frameSize (putFrame c a) + frameSize (putFrame c b) := by
        rw [fileSize_cons, fileSize_cons, fileSize_nil, Nat.add_zero] at h2
        exact h2
      have hdec1 : decodeAt (getFileD
          ([((1 : Int), ([] : File)),
            (0, [putFrame c a, putFrame c b])] : FileStore) 0) 0 =
          DecRes.ok (putFrame c a) (frameSize (putFrame c a)) := by
        rw [show getFileD
            ([((1 : Int), ([] : File)),
              (0, [putFrame c a, putFrame c b])] : FileStore) 0
            = [putFrame c a, putFrame c b] from by simp [getFileD, lookupF]]
        exact decodeAt_zero _ _
      have hget1 := getFq_one_ok c true none
        { files := [((1 : Int), ([] : File)),
            (0, [putFrame c a, putFrame c b])],
          posData := PosData.initTriple, shm := some (0, 0, 0), sem := 3,
          lck := 1, frnum := none, fwnum := some 1 }
        0 0 0 (frameSize (putFrame c a)) 2 0 (putFrame c a) rfl rfl rfl hdec1 rfl
      have hpk : frameSize (putFrame c a) <
          frameSize (putFrame c a) + frameSize (putFrame c b) := by
        have := frameSize_pos (putFrame c b)
        omega
      refine ⟨_, _,
        { files := [((1 : Int), ([] : File)),
            (0, [putFrame c a, putFrame c b])],
          posData := PosData.initTriple,
          shm := some (0, frameSize (putFrame c a), 1), sem := 3, lck := 1,
          frnum := some 0, fwnum := some 1 }, hput1, hput2, ?_, ?_⟩
      · rw [hget1]
        dsimp only
        refine Prod.ext (putFrame_payload c a hdcmp hld hne) ?_
        simp [hA, hpk, finallyUpd, updatePos, updatePosTr, relLock, getFileD,
          lookupF, fileSize_cons, fileSize_nil, sync_age, openRead, cleanup,
          cleanupAux, existsF, -Prod.mk_zero_zero]
      · have hdec2 : decodeAt (getFileD
            ([((1 : Int), ([] : File)),
              (0, [putFrame c a, putFrame c b])] : FileStore) 0)
            (frameSize (putFrame c a)) =
            DecRes.ok (putFrame c b)
              (frameSize (putFrame c a) + frameSize (putFrame c b)) := by
          rw [show getFileD
              ([((1 : Int), ([] : File)),
                (0, [putFrame c a, putFrame c b])] : FileStore) 0
              = [putFrame c a, putFrame c b] from by simp [getFileD, lookupF]]
          exact decodeAt_second _ _ _
        rw [getFq_one_ok c true none
          { files := [((1 : Int), ([] : File)),
              (0, [putFrame c a, putFrame c b])],
            posData := PosData.initTriple,
            shm := some (0, frameSize (putFrame c a), 1), sem := 3, lck := 1,
            frnum := some 0, fwnum := some 1 }
          0 (frameSize (putFrame c a)) 1
          (frameSize (putFrame c a) + frameSize (putFrame c b)) 2 0
          (putFrame c b) rfl rfl rfl hdec2 rfl]
        dsimp only
        exact putFrame_payload c b hdcmp hld hne
  case isTrue h1 =>
    -- the first record alone passes the threshold: put a rotates to bucket 1
    simp [openWrite, scanW, existsF, lookupF, -Prod.mk_zero_zero] at hput1
    have hA : bucket_size < frameSize (putFrame c a) := by
      rw [fileSize_cons, fileSize_nil, Nat.add_zero] at h1
      exact h1
    have hput2 := putQ_ok c
      { files := [((1 : Int), ([] : File)), (0, [putFrame c a])],
        posData := PosData.initTriple, shm := some (0, 0, 0), sem := 2,
        lck := 1, frnum := none, fwnum := some 1 } b true none 1 rfl
    simp [getFileD, lookupF, setF, -Prod.mk_zero_zero] at hput2
    have hpkB : (0 : Nat) < frameSize (putFrame c b) :=
      frameSize_pos (putFrame c b)
    split at hput2
    case isFalse h2 =>
      have hB : ¬ bucket_size < frameSize (putFrame c b) := by
        rw [fileSize_cons, fileSize_nil, Nat.add_zero] at h2
        exact h2
      have hdec1 : decodeAt (getFileD
          ([((1 : Int), [putFrame c b]),
            (0, [putFrame c a])] : FileStore) 0) 0 =
          DecRes.ok (putFrame c a) (frameSize (putFrame c a)) := by
        rw [show getFileD
            ([((1 : Int), [putFrame c b]),
              (0, [putFrame c a])] : FileStore) 0
            = [putFrame c a] from by simp [getFileD, lookupF]]
        exact decodeAt_zero _ _
      have hget1 := getFq_one_ok c true none
        { files := [((1 : Int), [putFrame c b]), (0, [putFrame c a])],
          posData := PosData.initTriple, shm := some (0, 0, 0), sem := 3,
          lck := 1, frnum := none, fwnum := some 1 }
        0 0 0 (frameSize (putFrame c a)) 2 0 (putFrame c a) rfl rfl rfl hdec1 rfl
      refine ⟨_, _,
        { files := [((1 : Int), [putFrame c b]), (0, [putFrame c a])],
          posData := PosData.pair 1 0, shm := some (1, 0, 1), sem := 3,
          lck := 1, frnum := some 1, fwnum := some 1 }, hput1, hput2, ?_, ?_⟩
      · rw [hget1]
        dsimp only
        refine Prod.ext (putFrame_payload c a hdcmp hld hne) ?_
        simp [hA, hpkB, finallyUpd, updatePos, updatePosTr, relLock, getFileD,
          lookupF, fileSize_cons, fileSize_nil, sync_age, openRead, cleanup,
          cleanupAux, existsF, loadPair, -Prod.mk_zero_zero]
      · have hdec2 : decodeAt (getFileD
            ([((1 : Int), [putFrame c b]),
              (0, [putFrame c a])] : FileStore) 1) 0 =
            DecRes.ok (putFrame c b) (frameSize (putFrame c b)) := by
          rw [show getFileD
              ([((1 : Int), [putFrame c b]),
                (0, [putFrame c a])] : FileStore) 1
              = [putFrame c b] from by simp [getFileD, lookupF]]
          exact decodeAt_zero _ _
        rw [getFq_one_ok c true none
          { files := [((1 : Int), [putFrame c b]), (0, [putFrame c a])],
            posData := PosData.pair 1 0, shm := some (1, 0, 1), sem := 3,
            lck := 1, frnum := some 1, fwnum := some 1 }
          1 0 1 (frameSize (putFrame c b)) 2 0
          (putFrame c b) rfl rfl rfl hdec2 rfl]
        dsimp only
        exact putFrame_payload c b hdcmp hld hne
    case isTrue h2 =>
      -- the second record alone passes the threshold too
      simp [openWrite, scanW, existsF, lookupF, -Prod.mk_zero_zero] at hput2
      have hdec1 : decodeAt (getFileD
          ([((2 : Int), ([] : File)), (1, [putFrame c b]),
            (0, [putFrame c a])] : FileStore) 0) 0 =
          DecRes.ok (putFrame c a) (frameSize (putFrame c a)) := by
        rw [show getFileD
            ([((2 : Int), ([] : File)), (1, [putFrame c b]),
              (0, [putFrame c a])] : FileStore) 0
            = [putFrame c a] from by simp [getFileD, lookupF]]
        exact decodeAt_zero _ _
      have hget1 := getFq_one_ok c true none
        { files := [((2 : Int), ([] : File)), (1, [putFrame c b]),
            (0, [putFrame c a])],
          posData := PosData.initTriple, shm := some (0, 0, 0), sem := 3,
          lck := 1, frnum := none, fwnum := some 2 }
        0 0 0 (frameSize (putFrame c a)) 2 0 (putFrame c a) rfl rfl rfl hdec1 rfl
      refine ⟨_, _,
        { files := [((2 : Int), ([] : File)), (1, [putFrame c b]),
            (0, [putFrame c a])],
          posData := PosData.pair 1 0, shm := some (1, 0, 1), sem := 3,
          lck := 1, frnum := some 1, fwnum := some 2 }, hput1, hput2, ?_, ?_⟩
      · rw [hget1]
        dsimp only
        refine Prod.ext (putFrame_payload c a hdcmp hld hne) ?_
        simp [hA, hpkB, finallyUpd, updatePos, updatePosTr, relLock, getFileD,
          lookupF, fileSize_cons, fileSize_nil, sync_age, openRead, cleanup,
          cleanupAux, existsF, loadPair, -Prod.mk_zero_zero]
      · have hdec2 : decodeAt (getFileD
            ([((2 : Int), ([] : File)), (1, [putFrame c b]),
              (0, [putFrame c a])] : FileStore) 1) 0 =
            DecRes.ok (putFrame c b) (frameSize (putFrame c b)) := by
          rw [show getFileD
              ([((2 : Int), ([] : File)), (1, [putFrame c b]),
                (0, [putFrame c a])] : FileStore) 1
              = [putFrame c b] from by simp [getFileD, lookupF]]
          exact decodeAt_zero _ _
        rw [getFq_one_ok c true none
          { files := [((2 : Int), ([] : File)), (1, [putFrame c b]),
              (0, [putFrame c a])],
            posData := PosData.pair 1 0, shm := some (1, 0, 1), sem := 3,
            lck := 1, frnum := some 1, fwnum := some 2 }
          1 0 1 (frameSize (putFrame c b)) 2 0
          (putFrame c b) rfl rfl rfl hdec2 rfl]
        dsimp only
        exact putFrame_payload c b hdcmp hld hne

/-- Witness for C3 with the concrete codec and payloads `[1]` and `[2, 2]`. -/
theorem claim_C3_witness :
    ∃ s1 s2 s3, putQ natCodec freshState [1] true none = Except.ok s1 ∧
      putQ natCodec s1 [2, 2] true none = Except.ok s2 ∧
      getFq natCodec 1 s2 true none = (GetOut.payload [1], s3) ∧
      (getFq natCodec 1 s3 true none).1 = GetOut.payload [2, 2] :=
  claim_C3 natCodec [1] [2, 2] (fun lb => rfl) (fun w => rfl)
    (fun lb h => List.noConfusion h)


/-- C9: `put(value, block, timeout)` ignores its `block` and `timeout`
arguments entirely — its body (fqueue.py:230-242) never reads them — so `put`
behaves identically for all combinations, and it never fails with `Full`. -/
theorem claim_C9 {α : Type} (c : Codec α) (s : QState) (v : α)
    (b b' : Bool) (t t' : Option Nat) :
    putTr c s v b t = putTr c s v b' t' ∧
    putQ c s v b t ≠ Except.error PutErr.full := by
  constructor
  · rfl
  · unfold putQ putTr
    cases s.fwnum <;> simp [Except.map]

/-- C10: `_update_pos` never raises on an unreadable `name.pos`: when the
stored content does not decode as a 2-tuple the position read falls back to
`(0, 0)`; and when both `fnum` and `offset` are supplied, the pre-update tuple
is returned, the file afterwards holds the new tuple, and the event trace shows
the load, overwrite, flush and fsync all strictly between the exclusive-lock
acquire and release on `name.pos`. -/
theorem claim_C10 (s : QState) (f : Int) (o : Nat) :
    (loadPair s.posData = none → (updatePosTr s none none).1 = (0, 0)) ∧
    (updatePosTr s (some f) (some o)).1 = (loadPair s.posData).getD (0, 0) ∧
    (updatePosTr s (some f) (some o)).2.1.posData = PosData.pair f o ∧
    (updatePosTr s (some f) (some o)).2.2 =
      [Ev.flockAcq, Ev.load, Ev.dump, Ev.flush, Ev.fsync, Ev.flockRel] := by
  refine ⟨?_, rfl, rfl, rfl⟩
  intro h
  simp [updatePosTr, h]

/-- Witness for C10 at a queue whose `name.pos` holds garbage. -/
theorem claim_C10_witness :
    loadPair ({ blankFS with posData := PosData.corruptData } : QState).posData
        = none ∧
    (updatePosTr { blankFS with posData := PosData.corruptData } none none).1
        = (0, 0) ∧
    (updatePosTr { blankFS with posData := PosData.corruptData } (some 7)
        (some 4)).2.1.posData = PosData.pair 7 4 :=
  ⟨rfl,
   (claim_C10 { blankFS with posData := PosData.corruptData } 7 4).1 rfl,
   (claim_C10 { blankFS with posData := PosData.corruptData } 7 4).2.2.1⟩

/-- C4: `put` performs, in order: file-lock acquire, framed write, flush,
fsync, tell, lock release, pending-item semaphore release, and only then — when
the recorded offset passed `bucket_size` — opening of write bucket `fwnum + 1`;
in particular the fsync strictly precedes the semaphore release in every
successful trace. -/
theorem claim_C4 {α : Type} (c : Codec α) (s : QState) (v : α) (b : Bool)
    (t : Option Nat) (fw : Int) (h : s.fwnum = some fw) :
    ∃ s', putTr c s v b t = Except.ok (s',
        [Ev.flockAcq, Ev.dump, Ev.flush, Ev.fsync, Ev.tell, Ev.flockRel,
         Ev.semRel] ++
        (if fileSize (getFileD s.files fw ++ [putFrame c v]) > bucket_size
         then [Ev.openW (fw + 1)] else [])) ∧
      (∀ tr s'', putTr c s v b t = Except.ok (s'', tr) →
        ∃ i j, i < j ∧ tr.get? i = some Ev.fsync ∧ tr.get? j = some Ev.semRel) := by
  refine ⟨?_, ?_, ?_⟩
  · exact (if fileSize (getFileD s.files fw ++ [putFrame c v]) > bucket_size
      then openWrite { s with
          files := setF s.files fw (getFileD s.files fw ++ [putFrame c v]),
          sem := s.sem + 1 } (fw + 1)
      else { s with
          files := setF s.files fw (getFileD s.files fw ++ [putFrame c v]),
          sem := s.sem + 1 })
  · simp only [putTr, h, putFrame]
    split <;> rfl
  · intro tr s'' htr
    simp only [putTr, h] at htr
    split at htr <;> (cases htr; exact ⟨3, 6, by omega, rfl, rfl⟩)

/-- Witness for C4 on a fresh queue. -/
theorem claim_C4_witness :
    freshState.fwnum = some 0 ∧
    (∃ s', putTr natCodec freshState [1] true none = Except.ok (s',
        [Ev.flockAcq, Ev.dump, Ev.flush, Ev.fsync, Ev.tell, Ev.flockRel,
         Ev.semRel] ++
        (if fileSize (getFileD freshState.files 0 ++ [putFrame natCodec [1]])
              > bucket_size
         then [Ev.openW (0 + 1)] else [])) ∧
      (∀ tr s'', putTr natCodec freshState [1] true none = Except.ok (s'', tr) →
        ∃ i j, i < j ∧ tr.get? i = some Ev.fsync ∧ tr.get? j = some Ev.semRel)) :=
  ⟨by decide, claim_C4 natCodec freshState [1] true none 0 (by decide)⟩

end FQueue
